import Mathlib

/-!
Verification development for the transform_canvas library.

The embedding below translates the transform pipeline of class
TransformCanvas (file transform_canvas.py) and the builder class Matrix
into Lean definitions over the real numbers.  Floating point numbers are
modelled by real numbers; numpy 3x3 arrays by Matrix (Fin 3) (Fin 3) real;
Python exceptions (raise ValueError) by Except String; the tkinter widget
state that the transform code reads (canvas width and height in pixels,
the mouse pointer position) is carried explicitly in the State structure
or passed as an argument.
-/

open Real

namespace TC

/-- 3x3 real matrix used for homogeneous 2D coordinates (numpy shape (3,3)). -/
abbrev M3 := Matrix (Fin 3) (Fin 3) ℝ

/-- Python float modulo a % b, which equals a - b * floor(a / b); for b > 0 the
result lies in [0, b). -/
noncomputable def pymod (a b : ℝ) : ℝ := a - b * ⌊a / b⌋

/-- Allowed values of the direction parameter (tk.NE, tk.SE, tk.SW, tk.NW). -/
inductive Direction
  | NE | SE | SW | NW
deriving DecidableEq

/-- Allowed values of the origin parameter (tk.N, tk.NE, tk.E, tk.SE, tk.S,
tk.SW, tk.W, tk.NW, tk.CENTER). -/
inductive Origin
  | N | NE | E | SE | S | SW | W | NW | CENTER
deriving DecidableEq

/-- Zoom direction enum TransformCanvas.ZoomDir. -/
inductive ZoomDir
  | IN | OUT
deriving DecidableEq

/-- Arc style (tk.PIESLICE, tk.CHORD, tk.ARC). -/
inductive ArcStyle
  | PIESLICE | CHORD | ARC
deriving DecidableEq

/-- The tkinter direction tokens accepted by the direction setter; an
unrecognized token is rejected (ValueError). -/
def parseDirection (tok : String) : Option Direction :=
  if tok = "ne" then some Direction.NE
  else if tok = "se" then some Direction.SE
  else if tok = "sw" then some Direction.SW
  else if tok = "nw" then some Direction.NW
  else none

/-- The tkinter origin tokens accepted by the origin setter; an unrecognized
token is rejected (ValueError). -/
def parseOrigin (tok : String) : Option Origin :=
  if tok = "n" then some Origin.N
  else if tok = "ne" then some Origin.NE
  else if tok = "e" then some Origin.E
  else if tok = "se" then some Origin.SE
  else if tok = "s" then some Origin.S
  else if tok = "sw" then some Origin.SW
  else if tok = "w" then some Origin.W
  else if tok = "nw" then some Origin.NW
  else if tok = "center" then some Origin.CENTER
  else none

/-- A numpy 2D array value as supplied to the transformation_matrix setter:
a shape together with the entries.  Only the shape (3, 3) is accepted. -/
structure NDArray2 where
  rows : ℕ
  cols : ℕ
  entry : ℕ → ℕ → ℝ

/-- The state of a TransformCanvas: the canvas pixel dimensions (from
winfo_width / winfo_height), the six transform parameters, and the cached
composed transformation matrix together with its cached inverse. -/
structure State where
  width : ℕ
  height : ℕ
  scale_base : ℝ
  scale_ratio : Option ℝ
  zoom_factor : ℝ
  zoom_value : ℝ
  direction : Direction
  origin : Origin
  offset : ℝ × ℝ
  rotation : ℝ
  transformation_matrix : M3
  transformation_matrix_inv : M3

/-- TransformCanvas._get_direction_vector. -/
def get_direction_vector : Direction → ℝ × ℝ
  | Direction.NE => (1, -1)
  | Direction.SE => (1, 1)
  | Direction.SW => (-1, 1)
  | Direction.NW => (-1, -1)

/-- TransformCanvas._get_origin_vector; int(self.width / 2) on a nonnegative
int is floor division by 2. -/
def get_origin_vector (o : Origin) (w h : ℕ) : ℝ × ℝ :=
  match o with
  | Origin.N => ((w / 2 : ℕ), 0)
  | Origin.NE => (w, 0)
  | Origin.E => (w, (h / 2 : ℕ))
  | Origin.SE => (w, h)
  | Origin.S => ((w / 2 : ℕ), h)
  | Origin.SW => (0, h)
  | Origin.W => (0, (h / 2 : ℕ))
  | Origin.NW => (0, 0)
  | Origin.CENTER => ((w / 2 : ℕ), (h / 2 : ℕ))

/-- TransformCanvas.calc_scale_ratio_effective; the Python code tests the
truthiness of self._scale_ratio, so both None and 0.0 leave the ratio at 1. -/
noncomputable def calc_scale_ratio_effective (s : State) : ℝ :=
  match s.scale_ratio with
  | none => 1
  | some r => if r = 0 then 1 else r / ((s.width : ℝ) / (s.height : ℝ))

/-- TransformCanvas._v_scale: scale_base * scale_ratio_effective * zoom *
direction vector, componentwise. -/
noncomputable def v_scale (s : State) : ℝ × ℝ :=
  (s.scale_base * calc_scale_ratio_effective s * s.zoom_value * (get_direction_vector s.direction).1,
   s.scale_base * calc_scale_ratio_effective s * s.zoom_value * (get_direction_vector s.direction).2)

/-- TransformCanvas._v_translate: origin vector plus offset, componentwise. -/
def v_translate (s : State) : ℝ × ℝ :=
  ((get_origin_vector s.origin s.width s.height).1 + s.offset.1,
   (get_origin_vector s.origin s.width s.height).2 + s.offset.2)

/-- TransformCanvas._m_scale. -/
noncomputable def m_scale (s : State) : M3 :=
  !![(v_scale s).1, 0, 0; 0, (v_scale s).2, 0; 0, 0, 1]

/-- TransformCanvas._m_rotate; the rotation value is negated to rotate in the
mathematical sense on a downward-positive pixel y-axis. -/
noncomputable def m_rotate (s : State) : M3 :=
  !![Real.cos (-s.rotation), -Real.sin (-s.rotation), 0;
     Real.sin (-s.rotation), Real.cos (-s.rotation), 0;
     0, 0, 1]

/-- TransformCanvas._m_translate. -/
def m_translate (s : State) : M3 :=
  !![1, 0, (v_translate s).1; 0, 1, (v_translate s).2; 0, 0, 1]

/-- The composed matrix computed by
TransformCanvas._update_transformation_matrix:
m_translate @ m_rotate @ m_scale. -/
noncomputable def computed_matrix (s : State) : M3 :=
  m_translate s * m_rotate s * m_scale s

/-- TransformCanvas._update_transformation_matrix: stores the composed matrix
and its inverse (np.linalg.inv) together. -/
noncomputable def update_transformation_matrix (s : State) : State :=
  { s with
    transformation_matrix := computed_matrix s
    transformation_matrix_inv := (computed_matrix s)⁻¹ }

/-- The cached matrix fields agree with the current parameters, as established
by every parameter mutation (each setter ends in update()). -/
def Synced (s : State) : Prop :=
  s.transformation_matrix = computed_matrix s ∧
    s.transformation_matrix_inv = (computed_matrix s)⁻¹

/-- TransformCanvas._transform_point / transform_point: builds the homogeneous
vector [x, y, 1]; with inv=False it applies the stored INVERSE matrix, with
inv=True the stored forward matrix, and returns the first two components. -/
noncomputable def transform_point (s : State) (x y : ℝ) (inv : Bool) : ℝ × ℝ :=
  let m := if inv then s.transformation_matrix else s.transformation_matrix_inv
  let q := Matrix.mulVec m ![x, y, 1]
  (q 0, q 1)

/-- Consecutive (x, y) pairs of a flat list: zip(coords[0::2], coords[1::2]). -/
def pairList : List ℝ → List (ℝ × ℝ)
  | x :: y :: rest => (x, y) :: pairList rest
  | _ => []

/-- Flattening of a list of points back into a flat coordinate list. -/
def flatList : List (ℝ × ℝ) → List ℝ
  | [] => []
  | p :: rest => p.1 :: p.2 :: flatList rest

/-- TransformCanvas.transform_coords: requires an even number of coordinates
(raises ValueError otherwise); applies the supplied matrix if any, else the
forward matrix for inv=False and the inverse matrix for inv=True, to each
(x, y, 1), and returns the flattened result. -/
noncomputable def transform_coords (s : State) (coords : List ℝ) (inv : Bool)
    (matrix : Option M3) : Except String (List ℝ) :=
  if coords.length % 2 ≠ 0 then
    Except.error "Number of arguments is not a multiple of two."
  else
    let m := matrix.getD (if inv then s.transformation_matrix_inv else s.transformation_matrix)
    Except.ok (flatList ((pairList coords).map (fun p =>
      let q := Matrix.mulVec m ![p.1, p.2, 1]
      (q 0, q 1))))

/-- The scale_base setter: rejects 0, else stores the value and updates. -/
noncomputable def set_scale_base (s : State) (value : ℝ) : Except String State :=
  if value = 0 then
    Except.error "The value for scale_base needs to be != 0 (and usually > 0)."
  else
    Except.ok (update_transformation_matrix { s with scale_base := value })

/-- The scale_ratio setter: rejects a non-positive value unless it is None. -/
noncomputable def set_scale_ratio (s : State) (value : Option ℝ) : Except String State :=
  match value with
  | some r =>
    if r ≤ 0 then
      Except.error "The value for scale_ratio needs to be > 0."
    else
      Except.ok (update_transformation_matrix { s with scale_ratio := some r })
  | none => Except.ok (update_transformation_matrix { s with scale_ratio := none })

/-- The zoom_factor setter: rejects a non-positive value. -/
noncomputable def set_zoom_factor (s : State) (value : ℝ) : Except String State :=
  if value ≤ 0 then
    Except.error "The value for zoom_factor needs to be > 0 (and usually > 1)."
  else
    Except.ok (update_transformation_matrix { s with zoom_factor := value })

/-- The zoom setter: rejects 0. -/
noncomputable def set_zoom (s : State) (value : ℝ) : Except String State :=
  if value = 0 then
    Except.error "The value for zoom needs to be != 0 (and usually > 0)."
  else
    Except.ok (update_transformation_matrix { s with zoom_value := value })

/-- The direction setter: rejects a token outside (tk.NE, tk.SE, tk.SW, tk.NW). -/
noncomputable def set_direction (s : State) (tok : String) : Except String State :=
  match parseDirection tok with
  | none => Except.error "The value for direction needs to be in the allowed values."
  | some d => Except.ok (update_transformation_matrix { s with direction := d })

/-- The origin setter: rejects a token outside the nine allowed values. -/
noncomputable def set_origin (s : State) (tok : String) : Except String State :=
  match parseOrigin tok with
  | none => Except.error "The value for origin needs to be in the allowed values."
  | some o => Except.ok (update_transformation_matrix { s with origin := o })

/-- The offset setter: each component can be set individually (None keeps the
old component); no validation. -/
noncomputable def set_offset (s : State) (value : Option ℝ × Option ℝ) : Except String State :=
  Except.ok (update_transformation_matrix
    { s with offset := (value.1.getD s.offset.1, value.2.getD s.offset.2) })

/-- The rotation setter: normalizes the angle via ((value + 2 pi) mod 2 pi)
mapped back into (-pi, pi]. -/
noncomputable def set_rotation (s : State) (value : ℝ) : Except String State :=
  let rot := pymod (value + 2 * Real.pi) (2 * Real.pi)
  let rot := if rot ≤ Real.pi then rot else -(2 * Real.pi) + rot
  Except.ok (update_transformation_matrix { s with rotation := rot })

/-- The transformation_matrix setter: rejects any value whose shape is not
(3, 3); on success it stores the supplied matrix and calls
update(update_transformation_matrix=False), so NEITHER the six parameters NOR
the cached inverse matrix are recomputed. -/
def set_transformation_matrix (s : State) (value : NDArray2) : Except String State :=
  if value.rows = 3 ∧ value.cols = 3 then
    Except.ok { s with
      transformation_matrix := Matrix.of fun i j : Fin 3 => value.entry i j }
  else
    Except.error "The value for transformation matrix needs to be a np.ndarray of shape (3, 3)."

/-- Runs a mutator with Python exception semantics: on an error the object
keeps its prior state. -/
def runMutation (r : Except String State) (s : State) : State :=
  match r with
  | Except.ok s2 => s2
  | Except.error _ => s

/-- True when the mutator raised. -/
def raised {α : Type} (r : Except String α) : Prop :=
  match r with
  | Except.ok _ => False
  | Except.error _ => True

/-- Flip of the zoom direction, used when zoom_factor < 1. -/
def flipZoomDir : ZoomDir → ZoomDir
  | ZoomDir.IN => ZoomDir.OUT
  | ZoomDir.OUT => ZoomDir.IN

/-- The anchor pixel of a zoom step: the pointer position, or the canvas
center (width / 2., height / 2., float division) when the pointer is outside
the canvas rectangle. -/
noncomputable def zoomAnchor (s : State) (pointer : ℝ × ℝ) : ℝ × ℝ :=
  if 0 ≤ pointer.1 ∧ pointer.1 < (s.width : ℝ) ∧ 0 ≤ pointer.2 ∧ pointer.2 < (s.height : ℝ) then
    pointer
  else
    ((s.width : ℝ) / 2, (s.height : ℝ) / 2)

/-- TransformCanvas._zoom: possibly flips factor and direction when
zoom_factor < 1, multiplies the zoom value (through the zoom setter, which
rejects a zero result), then shifts the offset by
(anchor - v_translate) * |factor_update - 1| * sign so the anchor stays
fixed, and recomputes the matrix. -/
noncomputable def zoom (s : State) (zoom_dir : ZoomDir) (pointer : ℝ × ℝ) :
    Except String State :=
  let zoom_factor := if s.zoom_factor < 1 then 1 / s.zoom_factor else s.zoom_factor
  let zoom_dir := if s.zoom_factor < 1 then flipZoomDir zoom_dir else zoom_dir
  let zoom_factor_update :=
    match zoom_dir with
    | ZoomDir.IN => zoom_factor
    | ZoomDir.OUT => 1 / zoom_factor
  if s.zoom_value * zoom_factor_update = 0 then
    Except.error "The value for zoom needs to be != 0 (and usually > 0)."
  else
    let s1 := update_transformation_matrix { s with zoom_value := s.zoom_value * zoom_factor_update }
    let zoom_factor_diff := |zoom_factor_update - 1|
    let p := zoomAnchor s pointer
    let sign : ℝ :=
      match zoom_dir with
      | ZoomDir.IN => -1
      | ZoomDir.OUT => 1
    Except.ok (update_transformation_matrix
      { s1 with offset := (s1.offset.1 + (p.1 - (v_translate s1).1) * zoom_factor_diff * sign,
                           s1.offset.2 + (p.2 - (v_translate s1).2) * zoom_factor_diff * sign) })

/-- TransformCanvas._get_pos_modulo_angle: converts an angle into the
positive range [0, two_pi); with keep_full_angle, an exact multiple of the
full angle yields the full angle itself instead of 0. -/
noncomputable def get_pos_modulo_angle (angle : ℝ) (deg : Bool) (keep_full_angle : Bool) : ℝ :=
  let two_pi : ℝ := if deg then 360 else 2 * Real.pi
  if keep_full_angle ∧ pymod angle two_pi = 0 then two_pi
  else pymod angle two_pi

/-- The normalized start angle of create_arc, in radians:
_get_pos_modulo_angle(start, deg=True) / 180 * pi. -/
noncomputable def arcStart (startDeg : ℝ) : ℝ :=
  get_pos_modulo_angle startDeg true false / 180 * Real.pi

/-- The normalized extent angle of create_arc, in radians:
_get_pos_modulo_angle(extent, deg=True, keep_full_angle=True) / 180 * pi. -/
noncomputable def arcExtent (extentDeg : ℝ) : ℝ :=
  get_pos_modulo_angle extentDeg true true / 180 * Real.pi

/-- The step size 2 pi / n_segments of create_arc. -/
noncomputable def arcStep (n : ℕ) : ℝ := 2 * Real.pi / n

/-- The recomputed number of complete segments of create_arc:
int(n_segments / (2 pi) * extent); the argument is nonnegative, so int()
truncation is the floor. -/
noncomputable def arcNumSeg (n : ℕ) (extentDeg : ℝ) : ℕ :=
  (⌊(n : ℝ) / (2 * Real.pi) * arcExtent extentDeg⌋).toNat

/-- The leading partial segment of create_arc:
(step_size - start % step_size) % step_size. -/
noncomputable def arcBegin (n : ℕ) (startDeg : ℝ) : ℝ :=
  pymod (arcStep n - pymod (arcStart startDeg) (arcStep n)) (arcStep n)

/-- The trailing partial segment of create_arc: (start + extent) % step_size. -/
noncomputable def arcEnd (n : ℕ) (startDeg extentDeg : ℝ) : ℝ :=
  pymod (arcStart startDeg + arcExtent extentDeg) (arcStep n)

/-- The list of sampled perimeter angles built by create_arc: the exact start
angle when a leading partial segment exists, then the complete segment
boundaries, then the exact end angle when a trailing partial segment exists. -/
noncomputable def arcAngles (n : ℕ) (startDeg extentDeg : ℝ) : List ℝ :=
  (if arcBegin n startDeg > 0 then [arcStart startDeg] else []) ++
    (List.range (arcNumSeg n extentDeg)).map
      (fun i : ℕ => arcStart startDeg + arcBegin n startDeg + (i : ℝ) * arcStep n) ++
    (if arcEnd n startDeg extentDeg > 0 then [arcStart startDeg + arcExtent extentDeg] else [])

/-- The tessellation of create_arc in logical coordinates (before the local
and global transformations): unit circle samples at the arc angles, a center
point appended for the pie-slice style (forced to chord for a full turn),
then the matrix Matrix().scale(r1, r2).translate(r1+x1, r2+y1), which maps a
sample (cx, cy) to (r1 * cx + r1 + x1, r2 * cy + r2 + y1). -/
noncomputable def arcPoints (x1 y1 x2 y2 : ℝ) (n : ℕ) (startDeg extentDeg : ℝ)
    (style : ArcStyle) : List (ℝ × ℝ) :=
  let r1 := (x2 - x1) / 2
  let r2 := (y2 - y1) / 2
  let style := if arcExtent extentDeg = 2 * Real.pi then ArcStyle.CHORD else style
  let base := (arcAngles n startDeg extentDeg).map (fun a => (Real.cos a, Real.sin a))
  let base := if style = ArcStyle.PIESLICE then base ++ [((0 : ℝ), (0 : ℝ))] else base
  base.map (fun p => (r1 * p.1 + (r1 + x1), r2 * p.2 + (r2 + y1)))

/-- TransformCanvas.create_oval delegates to create_arc with start=0,
extent=360, style=tk.CHORD. -/
noncomputable def ovalPoints (x1 y1 x2 y2 : ℝ) (n : ℕ) : List (ℝ × ℝ) :=
  arcPoints x1 y1 x2 y2 n 0 360 ArcStyle.CHORD

end TC

namespace MatrixCls

/-- Matrix(): the identity seed of the builder class Matrix. -/
noncomputable def new : TC.M3 := 1

/-- Matrix.translate: left-multiplies the translation matrix onto self. -/
noncomputable def translate (self : TC.M3) (x y : ℝ) : TC.M3 :=
  !![1, 0, x; 0, 1, y; 0, 0, 1] * self

/-- Matrix.scale: left-multiplies the (optionally pivoted) scaling matrix
onto self. -/
noncomputable def scale (self : TC.M3) (x y : ℝ) (origin : Option (ℝ × ℝ)) : TC.M3 :=
  let m : TC.M3 := !![x, 0, 0; 0, y, 0; 0, 0, 1]
  let m :=
    match origin with
    | some o => translate new o.1 o.2 * m * translate new (-o.1) (-o.2)
    | none => m
  m * self

/-- Matrix.rotate: left-multiplies the (optionally pivoted) rotation matrix
(counterclockwise, np.cos / np.sin of the angle as given) onto self. -/
noncomputable def rotate (self : TC.M3) (angle : ℝ) (origin : Option (ℝ × ℝ)) : TC.M3 :=
  let m : TC.M3 :=
    !![Real.cos angle, -Real.sin angle, 0; Real.sin angle, Real.cos angle, 0; 0, 0, 1]
  let m :=
    match origin with
    | some o => translate new o.1 o.2 * m * translate new (-o.1) (-o.2)
    | none => m
  m * self

/-- Matrix.skew: RIGHT-multiplies the shear matrix onto self (self @ m),
unlike translate / scale / rotate which left-multiply. -/
noncomputable def skew (self : TC.M3) (angle_x angle_y : ℝ) : TC.M3 :=
  self * !![1, Real.tan (angle_x / 180 * Real.pi), 0;
            Real.tan (angle_y / 180 * Real.pi), 1, 0;
            0, 0, 1]

/-- One builder method call among translate, scale and rotate (skew composes
on the other side and is treated separately). -/
inductive Op
  | translateOp (x y : ℝ)
  | scaleOp (x y : ℝ) (origin : Option (ℝ × ℝ))
  | rotateOp (angle : ℝ) (origin : Option (ℝ × ℝ))

/-- Dispatch of one builder method call on the accumulated matrix. -/
noncomputable def applyOp (self : TC.M3) : Op → TC.M3
  | Op.translateOp x y => translate self x y
  | Op.scaleOp x y o => scale self x y o
  | Op.rotateOp a o => rotate self a o

/-- The elementary matrix realized by one builder operation. -/
noncomputable def elemMatrix : Op → TC.M3
  | Op.translateOp x y => !![1, 0, x; 0, 1, y; 0, 0, 1]
  | Op.scaleOp x y o =>
    match o with
    | some p => translate new p.1 p.2 * !![x, 0, 0; 0, y, 0; 0, 0, 1]
        * translate new (-p.1) (-p.2)
    | none => !![x, 0, 0; 0, y, 0; 0, 0, 1]
  | Op.rotateOp a o =>
    match o with
    | some p => translate new p.1 p.2
        * !![Real.cos a, -Real.sin a, 0; Real.sin a, Real.cos a, 0; 0, 0, 1]
        * translate new (-p.1) (-p.2)
    | none => !![Real.cos a, -Real.sin a, 0; Real.sin a, Real.cos a, 0; 0, 0, 1]

/-- The matrix produced by a chain of builder calls starting at Matrix(). -/
noncomputable def build (ops : List Op) : TC.M3 := ops.foldl applyOp new

/-- The shear matrix used by Matrix.skew (angles in degrees). -/
noncomputable def skewMatrix (angle_x angle_y : ℝ) : TC.M3 :=
  !![1, Real.tan (angle_x / 180 * Real.pi), 0;
     Real.tan (angle_y / 180 * Real.pi), 1, 0;
     0, 0, 1]

end MatrixCls

namespace TC

/-- The concrete scenario state before the initial update: viewport 100x100,
origin CENTER, offset (0, 0), scale_base 1, no scale_ratio, zoom 1,
zoom_factor 2, direction SE, rotation 0; the matrix caches are seeded with
the identity. -/
noncomputable def demoState0 : State :=
  { width := 100
    height := 100
    scale_base := 1
    scale_ratio := none
    zoom_factor := 2
    zoom_value := 1
    direction := Direction.SE
    origin := Origin.CENTER
    offset := (0, 0)
    rotation := 0
    transformation_matrix := 1
    transformation_matrix_inv := 1 }

/-- The concrete scenario state after the initial update(). -/
noncomputable def demoState : State := update_transformation_matrix demoState0

/-- A shape-(3, 3) input for the transformation_matrix setter holding twice
the identity matrix. -/
noncomputable def demoMatrixInput : NDArray2 :=
  { rows := 3, cols := 3, entry := fun i j => if i = j then 2 else 0 }

/-- The parameter part of the state reached inside _zoom just before the
final recomputation: the zoom value multiplied by the factor update f, and
the offset shifted by (anchor - v_translate) * diff * sign.  Used to state
the zoom anchoring lemmas; the _zoom body produces exactly
update_transformation_matrix of this state. -/
noncomputable def zoomResultCore (s : State) (f dd sgn : ℝ) (a : ℝ × ℝ) : State :=
  { s with
    zoom_value := s.zoom_value * f
    offset := (s.offset.1 + (a.1 - (v_translate s).1) * dd * sgn,
               s.offset.2 + (a.2 - (v_translate s).2) * dd * sgn) }

/-- One public mutation of the transform state through a parameter setter or
the zoom controller (the transformation_matrix escape hatch is separate). -/
inductive ParamMutation
  | scaleBase (value : ℝ)
  | scaleRatio (value : Option ℝ)
  | zoomFactor (value : ℝ)
  | zoomVal (value : ℝ)
  | directionTok (tok : String)
  | originTok (tok : String)
  | offsetUpd (value : Option ℝ × Option ℝ)
  | rotationUpd (value : ℝ)
  | zoomStep (dir : ZoomDir) (pointer : ℝ × ℝ)

/-- Dispatch of a public parameter mutation to its setter. -/
noncomputable def applyParamMutation (s : State) : ParamMutation → Except String State
  | ParamMutation.scaleBase v => set_scale_base s v
  | ParamMutation.scaleRatio v => set_scale_ratio s v
  | ParamMutation.zoomFactor v => set_zoom_factor s v
  | ParamMutation.zoomVal v => set_zoom s v
  | ParamMutation.directionTok tok => set_direction s tok
  | ParamMutation.originTok tok => set_origin s tok
  | ParamMutation.offsetUpd v => set_offset s v
  | ParamMutation.rotationUpd v => set_rotation s v
  | ParamMutation.zoomStep d p => zoom s d p

/-- Vertex formula asserted by the specification for the oval and arc
tessellation, stated in the words of the spec for comparison with the code:
circle angle theta = 2 pi i / n, ellipse parameter angle phi = theta when
r1 = r2 and otherwise phi = atan(tan(theta) * sqrt(r2 / r1)) with + pi added
whenever cos(theta) < 0, and point i = center + (r1 cos phi, r2 sin phi). -/
noncomputable def specOvalVertex (x1 y1 x2 y2 : ℝ) (n : ℕ) (i : ℕ) : ℝ × ℝ :=
  let r1 := (x2 - x1) / 2
  let r2 := (y2 - y1) / 2
  let theta := 2 * Real.pi * i / n
  let phi :=
    if r1 = r2 then theta
    else Real.arctan (Real.tan theta * Real.sqrt (r2 / r1))
      + (if Real.cos theta < 0 then Real.pi else 0)
  ((x1 + r1) + r1 * Real.cos phi, (y1 + r2) + r2 * Real.sin phi)

end TC

namespace TC

/-- Action of an explicit 3x3 matrix on an explicit 3-vector, spelled out. -/
theorem mulVec_three (a b c d e f g h i x y z : ℝ) :
    Matrix.mulVec !![a, b, c; d, e, f; g, h, i] ![x, y, z] =
      ![a * x + b * y + c * z, d * x + e * y + f * z, g * x + h * y + i * z] := by
  funext k
  fin_cases k <;>
    simp [Matrix.mulVec, Matrix.dotProduct, Fin.sum_univ_three]

/-- Expansion of a 3-vector into its components. -/
theorem vec_three_eta (u : Fin 3 → ℝ) : ![u 0, u 1, u 2] = u := by
  funext k
  fin_cases k <;> rfl

/-- Explicit form of the affine action of the composed matrix on a
homogeneous vector. -/
theorem computed_matrix_mulVec (s : State) (x y z : ℝ) :
    Matrix.mulVec (computed_matrix s) ![x, y, z] =
      ![(v_scale s).1 * Real.cos (-s.rotation) * x
          - (v_scale s).2 * Real.sin (-s.rotation) * y + (v_translate s).1 * z,
        (v_scale s).1 * Real.sin (-s.rotation) * x
          + (v_scale s).2 * Real.cos (-s.rotation) * y + (v_translate s).2 * z,
        z] := by
  unfold computed_matrix m_translate m_rotate m_scale
  rw [← Matrix.mulVec_mulVec, ← Matrix.mulVec_mulVec, mulVec_three, mulVec_three, mulVec_three]
  funext k
  fin_cases k <;> simp <;> ring

/-- The determinant of the composed matrix is the product of the two scale
components. -/
theorem computed_matrix_det (s : State) :
    (computed_matrix s).det = (v_scale s).1 * (v_scale s).2 := by
  unfold computed_matrix m_translate m_rotate m_scale
  rw [Matrix.det_mul, Matrix.det_mul, Matrix.det_fin_three, Matrix.det_fin_three,
    Matrix.det_fin_three]
  simp [Matrix.vecHead, Matrix.vecTail]
  linear_combination (v_scale s).1 * (v_scale s).2 * Real.sin_sq_add_cos_sq s.rotation

/-- The composed matrix is invertible whenever both scale components are
nonzero. -/
theorem computed_matrix_isUnit_det (s : State) (hx : (v_scale s).1 ≠ 0)
    (hy : (v_scale s).2 ≠ 0) : IsUnit (computed_matrix s).det := by
  rw [computed_matrix_det]
  exact isUnit_iff_ne_zero.mpr (mul_ne_zero hx hy)

/-- Under the six parameter invariants (nonzero scale_base, positive
scale_ratio when set, nonzero zoom) and a nonempty viewport, both components
of the scaling vector are nonzero. -/
theorem v_scale_ne_zero (s : State) (hsb : s.scale_base ≠ 0) (hz : s.zoom_value ≠ 0)
    (hr : ∀ r ∈ s.scale_ratio, 0 < r) (hw : 0 < s.width) (hh : 0 < s.height) :
    (v_scale s).1 ≠ 0 ∧ (v_scale s).2 ≠ 0 := by
  have hratio : calc_scale_ratio_effective s ≠ 0 := by
    unfold calc_scale_ratio_effective
    cases hsr : s.scale_ratio with
    | none => norm_num
    | some r =>
      have hrpos : 0 < r := hr r (by simp [hsr])
      have hwpos : (0 : ℝ) < (s.width : ℝ) := by exact_mod_cast hw
      have hhpos : (0 : ℝ) < (s.height : ℝ) := by exact_mod_cast hh
      have : r / ((s.width : ℝ) / (s.height : ℝ)) ≠ 0 :=
        ne_of_gt (div_pos hrpos (div_pos hwpos hhpos))
      simp [ne_of_gt hrpos, this]
  have hd1 : (get_direction_vector s.direction).1 ≠ 0 := by
    cases s.direction <;> norm_num [get_direction_vector]
  have hd2 : (get_direction_vector s.direction).2 ≠ 0 := by
    cases s.direction <;> norm_num [get_direction_vector]
  exact ⟨mul_ne_zero (mul_ne_zero (mul_ne_zero hsb hratio) hz) hd1,
    mul_ne_zero (mul_ne_zero (mul_ne_zero hsb hratio) hz) hd2⟩

/-- Every run of _update_transformation_matrix leaves the two cached matrices
consistent with the parameters. -/
theorem synced_update_transformation_matrix (s : State) :
    Synced (update_transformation_matrix s) := ⟨rfl, rfl⟩

/-- transform_point with inv=True applies the stored forward matrix. -/
theorem transform_point_true (s : State) (x y : ℝ) :
    transform_point s x y true =
      (Matrix.mulVec s.transformation_matrix ![x, y, 1] 0,
       Matrix.mulVec s.transformation_matrix ![x, y, 1] 1) := rfl

/-- transform_point with inv=False applies the stored inverse matrix. -/
theorem transform_point_false (s : State) (x y : ℝ) :
    transform_point s x y false =
      (Matrix.mulVec s.transformation_matrix_inv ![x, y, 1] 0,
       Matrix.mulVec s.transformation_matrix_inv ![x, y, 1] 1) := rfl

/-- The composed matrix preserves the homogeneous component. -/
theorem computed_matrix_mulVec_third (s : State) (v : Fin 3 → ℝ) :
    Matrix.mulVec (computed_matrix s) v 2 = v 2 := by
  conv_lhs => rw [← vec_three_eta v]
  rw [computed_matrix_mulVec]
  simp

/-- Applying the inverse after the composed matrix is the identity. -/
theorem inv_mulVec_computed (s : State) (hdet : IsUnit (computed_matrix s).det)
    (v : Fin 3 → ℝ) :
    Matrix.mulVec (computed_matrix s)⁻¹ (Matrix.mulVec (computed_matrix s) v) = v := by
  rw [Matrix.mulVec_mulVec, Matrix.nonsing_inv_mul _ hdet, Matrix.one_mulVec]

/-- Applying the composed matrix after its inverse is the identity. -/
theorem computed_mulVec_inv (s : State) (hdet : IsUnit (computed_matrix s).det)
    (v : Fin 3 → ℝ) :
    Matrix.mulVec (computed_matrix s) (Matrix.mulVec (computed_matrix s)⁻¹ v) = v := by
  rw [Matrix.mulVec_mulVec, Matrix.mul_nonsing_inv _ hdet, Matrix.one_mulVec]

/-- C3: for every valid transform configuration (the six parameter invariants
together with a nonempty viewport, with the cached matrices up to date) and
every point (x, y), the forward point mapping followed by the inverse point
mapping returns (x, y) exactly, and the inverse followed by the forward
mapping returns (x, y) exactly (real arithmetic makes the floating-point
tolerance exact). -/
theorem C3_round_trip (s : State) (hs : Synced s)
    (hsb : s.scale_base ≠ 0) (hz : s.zoom_value ≠ 0)
    (hr : ∀ r ∈ s.scale_ratio, 0 < r) (hw : 0 < s.width) (hh : 0 < s.height)
    (x y : ℝ) :
    transform_point s (transform_point s x y true).1 (transform_point s x y true).2 false
        = (x, y) ∧
    transform_point s (transform_point s x y false).1 (transform_point s x y false).2 true
        = (x, y) := by
  obtain ⟨hm, hmi⟩ := hs
  obtain ⟨hx, hy⟩ := v_scale_ne_zero s hsb hz hr hw hh
  have hdet := computed_matrix_isUnit_det s hx hy
  constructor
  · rw [transform_point_true, transform_point_false]
    simp only [hm, hmi]
    have h3 : Matrix.mulVec (computed_matrix s) ![x, y, 1] 2 = 1 := by
      rw [computed_matrix_mulVec]
      simp
    have hqe : ![Matrix.mulVec (computed_matrix s) ![x, y, 1] 0,
        Matrix.mulVec (computed_matrix s) ![x, y, 1] 1, 1]
          = Matrix.mulVec (computed_matrix s) ![x, y, 1] := by
      conv_rhs => rw [← vec_three_eta (Matrix.mulVec (computed_matrix s) ![x, y, 1])]
      rw [h3]
    simp only [hqe, inv_mulVec_computed s hdet]
    simp
  · rw [transform_point_false, transform_point_true]
    simp only [hm, hmi]
    have hfwd : Matrix.mulVec (computed_matrix s)
        (Matrix.mulVec (computed_matrix s)⁻¹ ![x, y, 1]) = ![x, y, 1] :=
      computed_mulVec_inv s hdet ![x, y, 1]
    have h3 : Matrix.mulVec (computed_matrix s)⁻¹ ![x, y, 1] 2 = 1 := by
      have := computed_matrix_mulVec_third s (Matrix.mulVec (computed_matrix s)⁻¹ ![x, y, 1])
      rw [hfwd] at this
      simpa using this.symm
    have hqe : ![Matrix.mulVec (computed_matrix s)⁻¹ ![x, y, 1] 0,
        Matrix.mulVec (computed_matrix s)⁻¹ ![x, y, 1] 1, 1]
          = Matrix.mulVec (computed_matrix s)⁻¹ ![x, y, 1] := by
      conv_rhs => rw [← vec_three_eta (Matrix.mulVec (computed_matrix s)⁻¹ ![x, y, 1])]
      rw [h3]
    simp only [hqe, hfwd]
    simp

/-- C3 witness: the round trip at the concrete scenario state and the point
(3, 7). -/
theorem C3_round_trip_witness :
    transform_point demoState (transform_point demoState 3 7 true).1
        (transform_point demoState 3 7 true).2 false = (3, 7) ∧
    transform_point demoState (transform_point demoState 3 7 false).1
        (transform_point demoState 3 7 false).2 true = (3, 7) :=
  C3_round_trip demoState (synced_update_transformation_matrix demoState0)
    (by norm_num [demoState, update_transformation_matrix, demoState0])
    (by norm_num [demoState, update_transformation_matrix, demoState0])
    (by simp [demoState, update_transformation_matrix, demoState0])
    (by norm_num [demoState, update_transformation_matrix, demoState0])
    (by norm_num [demoState, update_transformation_matrix, demoState0])
    3 7

/-- C10: transform_point(x, y, inv) returns the same coordinate pair as
transform_coords([x, y], inv=not inv) with no matrix argument; the two
public mapping functions select opposite matrices for the same value of the
flag: transform_point with inv=False applies the stored inverse matrix while
transform_coords with inv=False applies the stored forward matrix. -/
theorem C10_point_coords_opposite (s : State) (x y : ℝ) (inv : Bool) :
    transform_coords s [x, y] (!inv) none =
      Except.ok [(transform_point s x y inv).1, (transform_point s x y inv).2] ∧
    transform_point s x y false =
      (Matrix.mulVec s.transformation_matrix_inv ![x, y, 1] 0,
       Matrix.mulVec s.transformation_matrix_inv ![x, y, 1] 1) ∧
    transform_coords s [x, y] false none =
      Except.ok [Matrix.mulVec s.transformation_matrix ![x, y, 1] 0,
        Matrix.mulVec s.transformation_matrix ![x, y, 1] 1] := by
  refine ⟨?_, rfl, ?_⟩
  · cases inv <;> simp [transform_coords, transform_point, pairList, flatList]
  · simp [transform_coords, pairList, flatList]

/-- The scaling vector of the concrete scenario state is (1, 1). -/
theorem demo_v_scale : v_scale demoState0 = (1, 1) := by
  simp [v_scale, demoState0, calc_scale_ratio_effective, get_direction_vector]

/-- The translation vector of the concrete scenario state is (50, 50). -/
theorem demo_v_translate : v_translate demoState0 = (50, 50) := by
  norm_num [v_translate, demoState0, get_origin_vector]

/-- The composed matrix of the concrete scenario state. -/
theorem demo_matrix : computed_matrix demoState0 = !![1, 0, 50; 0, 1, 50; 0, 0, 1] := by
  unfold computed_matrix m_translate m_rotate m_scale
  rw [demo_v_scale, demo_v_translate]
  norm_num [demoState0, Matrix.mul_fin_three]

/-- The inverse composed matrix of the concrete scenario state. -/
theorem demo_matrix_inv :
    (computed_matrix demoState0)⁻¹ = !![1, 0, -50; 0, 1, -50; 0, 0, 1] := by
  rw [demo_matrix]
  apply Matrix.inv_eq_right_inv
  rw [Matrix.one_fin_three]
  norm_num [Matrix.mul_fin_three]

/-- The stored forward matrix of the scenario state. -/
theorem demoState_matrix :
    demoState.transformation_matrix = !![1, 0, 50; 0, 1, 50; 0, 0, 1] := demo_matrix

/-- The stored inverse matrix of the scenario state. -/
theorem demoState_matrix_inv :
    demoState.transformation_matrix_inv = !![1, 0, -50; 0, 1, -50; 0, 0, 1] :=
  demo_matrix_inv

/-- C1 counterexample: in the concrete scenario (viewport 100x100,
origin=CENTER, offset=(0,0), scale_base=1, zoom=1, direction=SE, rotation=0)
the claim asserts transform_point(0, 0, inv=False) = (50, 50); the code
applies the INVERSE matrix for inv=False and returns (-50, -50). -/
theorem C1_cex : transform_point demoState 0 0 false ≠ (50, 50) := by
  rw [transform_point_false, demoState_matrix_inv, mulVec_three]
  norm_num [Prod.ext_iff]

/-- C1 (amended): transform_point applies the composed matrix
M = T(v_translate) * R(rotation) * S(v_scale) for inv=True (the forward,
logical to device mapping) and the inverse matrix for inv=False; in the
concrete scenario the forward mapping sends (0,0) to (50,50) and (10,0) to
(60,50), while transform_point with inv=False sends (0,0) to (-50,-50). -/
theorem C1_concrete_scenario :
    demoState.transformation_matrix
        = m_translate demoState0 * m_rotate demoState0 * m_scale demoState0 ∧
    transform_point demoState 0 0 true = (50, 50) ∧
    transform_point demoState 10 0 true = (60, 50) ∧
    transform_point demoState 0 0 false = (-50, -50) := by
  refine ⟨rfl, ?_, ?_, ?_⟩
  · rw [transform_point_true, demoState_matrix, mulVec_three]
    norm_num
  · rw [transform_point_true, demoState_matrix, mulVec_three]
    norm_num
  · rw [transform_point_false, demoState_matrix_inv, mulVec_three]
    norm_num

/-- After _update_transformation_matrix the stored inverse is the inverse of
the stored matrix. -/
theorem update_inv_eq (s : State) :
    (update_transformation_matrix s).transformation_matrix_inv
      = ((update_transformation_matrix s).transformation_matrix)⁻¹ := rfl

/-- The supplied 2 * identity matrix input, as a Lean matrix. -/
theorem demoMatrixInput_matrix :
    (Matrix.of fun i j : Fin 3 => demoMatrixInput.entry i j)
      = !![2, 0, 0; 0, 2, 0; 0, 0, 2] := by
  ext i j
  fin_cases i <;> fin_cases j <;>
    simp [demoMatrixInput, Matrix.vecHead, Matrix.vecTail]

/-- C2 counterexample: starting from the concrete scenario state and setting
the composed matrix directly to twice the identity, the stored inverse is
NOT recomputed: it keeps its previous value, which is neither the inverse of
the stored matrix nor the inverse of the supplied matrix. -/
theorem C2_cex :
    (runMutation (set_transformation_matrix demoState demoMatrixInput) demoState).transformation_matrix_inv
      ≠ ((runMutation (set_transformation_matrix demoState demoMatrixInput) demoState).transformation_matrix)⁻¹ := by
  have hrun : runMutation (set_transformation_matrix demoState demoMatrixInput) demoState
      = { demoState with
          transformation_matrix := Matrix.of fun i j : Fin 3 => demoMatrixInput.entry i j } := by
    simp [set_transformation_matrix, runMutation, demoMatrixInput]
  rw [hrun]
  have hmat : ({ demoState with
      transformation_matrix := Matrix.of fun i j : Fin 3 => demoMatrixInput.entry i j } :
        State).transformation_matrix = !![2, 0, 0; 0, 2, 0; 0, 0, 2] := demoMatrixInput_matrix
  have hinvfield : ({ demoState with
      transformation_matrix := Matrix.of fun i j : Fin 3 => demoMatrixInput.entry i j } :
        State).transformation_matrix_inv = !![1, 0, -50; 0, 1, -50; 0, 0, 1] :=
    demoState_matrix_inv
  have hinv2 : (!![2, 0, 0; 0, 2, 0; 0, 0, 2] : M3)⁻¹
      = !![1/2, 0, 0; 0, 1/2, 0; 0, 0, 1/2] := by
    apply Matrix.inv_eq_right_inv
    rw [Matrix.one_fin_three]
    norm_num [Matrix.mul_fin_three]
  rw [hmat, hinvfield, hinv2]
  intro h
  have h00 := congrFun (congrFun h 0) 0
  norm_num at h00

/-- Every public parameter mutation either raises or ends in a full
recomputation of the matrix pair. -/
theorem applyParamMutation_ok_shape (s : State) (m : ParamMutation) :
    raised (applyParamMutation s m) ∨
      ∃ t, applyParamMutation s m = Except.ok (update_transformation_matrix t) := by
  cases m <;>
    unfold applyParamMutation set_scale_base set_scale_ratio set_zoom_factor set_zoom
      set_direction set_origin set_offset set_rotation zoom <;>
    dsimp only <;>
    (repeat' split) <;>
    first
      | exact Or.inl trivial
      | exact Or.inr ⟨_, rfl⟩

/-- C2 (amended): after every successful public parameter mutation, the
stored inverse equals the inverse of the stored composed matrix (the two are
recomputed together); but when the composed matrix is set directly through
the transformation_matrix setter, the inverse is NOT recomputed: it keeps
its previous value while the six source parameters are also left untouched. -/
theorem C2_inverse_discipline (s : State) (m : ParamMutation) (s2 : State)
    (nd : NDArray2) (s3 : State) :
    (applyParamMutation s m = Except.ok s2 →
      s2.transformation_matrix_inv = (s2.transformation_matrix)⁻¹) ∧
    (set_transformation_matrix s nd = Except.ok s3 →
      s3.transformation_matrix = Matrix.of (fun i j : Fin 3 => nd.entry i j) ∧
      s3.transformation_matrix_inv = s.transformation_matrix_inv ∧
      s3.scale_base = s.scale_base ∧ s3.scale_ratio = s.scale_ratio ∧
      s3.zoom_factor = s.zoom_factor ∧ s3.zoom_value = s.zoom_value ∧
      s3.direction = s.direction ∧ s3.origin = s.origin ∧
      s3.offset = s.offset ∧ s3.rotation = s.rotation) := by
  constructor
  · intro h
    rcases applyParamMutation_ok_shape s m with herr | ⟨t, ht⟩
    · rw [h] at herr
      exact absurd herr (by simp [raised])
    · rw [ht] at h
      cases h
      exact update_inv_eq _
  · intro h
    rw [set_transformation_matrix] at h
    split at h
    · cases h
      exact ⟨rfl, rfl, rfl, rfl, rfl, rfl, rfl, rfl, rfl, rfl⟩
    · cases h

/-- C2 witness: the inverse discipline at the scenario state, for the
scale_base setter with value 3 and for the direct matrix assignment of
twice the identity. -/
theorem C2_witness :
    (update_transformation_matrix { demoState with scale_base := 3 }).transformation_matrix_inv
      = ((update_transformation_matrix { demoState with scale_base := 3 }).transformation_matrix)⁻¹ ∧
    ({ demoState with
        transformation_matrix := Matrix.of fun i j : Fin 3 => demoMatrixInput.entry i j } :
          State).transformation_matrix_inv = demoState.transformation_matrix_inv := by
  have h := C2_inverse_discipline demoState (ParamMutation.scaleBase 3)
    (update_transformation_matrix { demoState with scale_base := 3 }) demoMatrixInput
    { demoState with
      transformation_matrix := Matrix.of fun i j : Fin 3 => demoMatrixInput.entry i j }
  refine ⟨h.1 ?_, (h.2 ?_).2.1⟩
  · show set_scale_base demoState 3 = _
    unfold set_scale_base
    rw [if_neg (by norm_num)]
  · unfold set_transformation_matrix
    rw [if_pos ⟨rfl, rfl⟩]

/-- C9: every domain-validation error (zero scale_base, non-positive
scale_ratio or zoom_factor, zero zoom, unrecognized direction or origin
token, matrix input whose shape is not (3, 3), odd-length coordinate list)
is raised synchronously at the mutator or call boundary and the prior state
is left completely unchanged (the validation precedes every write). -/
theorem C9_validation_errors (s : State) (v : ℝ) (ratio : ℝ) (tok1 tok2 : String)
    (nd : NDArray2) (coords : List ℝ) (inv : Bool) (mat : Option M3) :
    (v = 0 → raised (set_scale_base s v) ∧ runMutation (set_scale_base s v) s = s) ∧
    (ratio ≤ 0 → raised (set_scale_ratio s (some ratio)) ∧
      runMutation (set_scale_ratio s (some ratio)) s = s) ∧
    (v ≤ 0 → raised (set_zoom_factor s v) ∧ runMutation (set_zoom_factor s v) s = s) ∧
    (v = 0 → raised (set_zoom s v) ∧ runMutation (set_zoom s v) s = s) ∧
    (parseDirection tok1 = none → raised (set_direction s tok1) ∧
      runMutation (set_direction s tok1) s = s) ∧
    (parseOrigin tok2 = none → raised (set_origin s tok2) ∧
      runMutation (set_origin s tok2) s = s) ∧
    (¬(nd.rows = 3 ∧ nd.cols = 3) → raised (set_transformation_matrix s nd) ∧
      runMutation (set_transformation_matrix s nd) s = s) ∧
    (coords.length % 2 ≠ 0 → raised (transform_coords s coords inv mat)) := by
  refine ⟨?_, ?_, ?_, ?_, ?_, ?_, ?_, ?_⟩
  · intro h
    unfold set_scale_base
    rw [if_pos h]
    exact ⟨trivial, rfl⟩
  · intro h
    unfold set_scale_ratio
    dsimp only
    rw [if_pos h]
    exact ⟨trivial, rfl⟩
  · intro h
    unfold set_zoom_factor
    rw [if_pos h]
    exact ⟨trivial, rfl⟩
  · intro h
    unfold set_zoom
    rw [if_pos h]
    exact ⟨trivial, rfl⟩
  · intro h
    unfold set_direction
    rw [h]
    exact ⟨trivial, rfl⟩
  · intro h
    unfold set_origin
    rw [h]
    exact ⟨trivial, rfl⟩
  · intro h
    unfold set_transformation_matrix
    rw [if_neg h]
    exact ⟨trivial, rfl⟩
  · intro h
    unfold transform_coords
    rw [if_pos h]
    trivial

/-- C9 witness: the concrete invalid inputs, including the spec example
transform_coords([1, 2, 3]). -/
theorem C9_witness :
    raised (set_scale_base demoState 0) ∧
    runMutation (set_scale_base demoState 0) demoState = demoState ∧
    raised (set_scale_ratio demoState (some 0)) ∧
    raised (set_zoom_factor demoState 0) ∧
    raised (set_zoom demoState 0) ∧
    raised (set_direction demoState "up") ∧
    raised (set_origin demoState "up") ∧
    raised (set_transformation_matrix demoState
      { rows := 2, cols := 2, entry := fun _ _ => 0 }) ∧
    raised (transform_coords demoState [1, 2, 3] false none) := by
  have h := C9_validation_errors demoState 0 0 "up" "up"
    { rows := 2, cols := 2, entry := fun _ _ => 0 } [1, 2, 3] false none
  exact ⟨(h.1 rfl).1, (h.1 rfl).2, (h.2.1 (by norm_num)).1, (h.2.2.1 (by norm_num)).1,
    (h.2.2.2.1 rfl).1, (h.2.2.2.2.1 (by decide)).1, (h.2.2.2.2.2.1 (by decide)).1,
    (h.2.2.2.2.2.2.1 (by decide)).1, h.2.2.2.2.2.2.2 (by decide)⟩

/-- The scaling vector after a zoom update is the old one multiplied by the
factor update. -/
theorem v_scale_zoomResultCore (s : State) (f dd sgn : ℝ) (a : ℝ × ℝ) :
    v_scale (zoomResultCore s f dd sgn a) = (f * (v_scale s).1, f * (v_scale s).2) := by
  unfold v_scale zoomResultCore calc_scale_ratio_effective
  dsimp only
  rw [Prod.mk.injEq]
  constructor <;> ring

/-- The translation vector after a zoom update is shifted by
(anchor - v_translate) * diff * sign. -/
theorem v_translate_zoomResultCore (s : State) (f dd sgn : ℝ) (a : ℝ × ℝ) :
    v_translate (zoomResultCore s f dd sgn a)
      = ((v_translate s).1 + (a.1 - (v_translate s).1) * dd * sgn,
         (v_translate s).2 + (a.2 - (v_translate s).2) * dd * sgn) := by
  have h1 : (v_translate s).1 = (get_origin_vector s.origin s.width s.height).1 + s.offset.1 :=
    rfl
  have h2 : (v_translate s).2 = (get_origin_vector s.origin s.width s.height).2 + s.offset.2 :=
    rfl
  unfold v_translate zoomResultCore
  dsimp only
  rw [Prod.mk.injEq]
  constructor
  · rw [h1]
    ring
  · rw [h2]
    ring

/-- The rotation is unchanged by a zoom update. -/
theorem rotation_zoomResultCore (s : State) (f dd sgn : ℝ) (a : ℝ × ℝ) :
    (zoomResultCore s f dd sgn a).rotation = s.rotation := rfl

/-- Core anchoring algebra: whenever diff * sign = 1 - f, the offset shift of
_zoom exactly compensates the zoom factor f, so the inverse mapping of the
anchor is unchanged. -/
theorem zoom_offset_anchors (s : State) (hs : Synced s)
    (hsb : s.scale_base ≠ 0) (hz : s.zoom_value ≠ 0)
    (hr : ∀ r ∈ s.scale_ratio, 0 < r) (hw : 0 < s.width) (hh : 0 < s.height)
    (f dd sgn : ℝ) (hf : f ≠ 0) (hdd : dd * sgn = 1 - f) (a : ℝ × ℝ) :
    transform_point (update_transformation_matrix (zoomResultCore s f dd sgn a)) a.1 a.2 false
      = transform_point s a.1 a.2 false := by
  obtain ⟨hm, hmi⟩ := hs
  obtain ⟨hx, hy⟩ := v_scale_ne_zero s hsb hz hr hw hh
  have hdet := computed_matrix_isUnit_det s hx hy
  have hxN : (v_scale (zoomResultCore s f dd sgn a)).1 ≠ 0 := by
    rw [v_scale_zoomResultCore]
    exact mul_ne_zero hf hx
  have hyN : (v_scale (zoomResultCore s f dd sgn a)).2 ≠ 0 := by
    rw [v_scale_zoomResultCore]
    exact mul_ne_zero hf hy
  have hdetN := computed_matrix_isUnit_det (zoomResultCore s f dd sgn a) hxN hyN
  rw [transform_point_false, transform_point_false]
  have hNi : (update_transformation_matrix (zoomResultCore s f dd sgn a)).transformation_matrix_inv
      = (computed_matrix (zoomResultCore s f dd sgn a))⁻¹ := rfl
  rw [hNi, hmi]
  suffices hkey : Matrix.mulVec (computed_matrix (zoomResultCore s f dd sgn a))⁻¹ ![a.1, a.2, 1]
      = Matrix.mulVec (computed_matrix s)⁻¹ ![a.1, a.2, 1] by rw [hkey]
  set u := Matrix.mulVec (computed_matrix s)⁻¹ ![a.1, a.2, 1] with hu
  have hfwd : Matrix.mulVec (computed_matrix s) u = ![a.1, a.2, 1] :=
    computed_mulVec_inv s hdet _
  have h3 : u 2 = 1 := by
    have h := computed_matrix_mulVec_third s u
    rw [hfwd] at h
    simpa using h.symm
  have hue : ![u 0, u 1, 1] = u := by
    conv_rhs => rw [← vec_three_eta u]
    rw [h3]
  have hform : Matrix.mulVec (computed_matrix s) u
      = ![(v_scale s).1 * Real.cos (-s.rotation) * u 0
            - (v_scale s).2 * Real.sin (-s.rotation) * u 1 + (v_translate s).1 * 1,
          (v_scale s).1 * Real.sin (-s.rotation) * u 0
            + (v_scale s).2 * Real.cos (-s.rotation) * u 1 + (v_translate s).2 * 1,
          1] := by
    conv_lhs => rw [← hue]
    exact computed_matrix_mulVec s (u 0) (u 1) 1
  have hcomp := hform.symm.trans hfwd
  have hc0 := congrFun hcomp 0
  have hc1 := congrFun hcomp 1
  simp at hc0 hc1
  have hkey2 : Matrix.mulVec (computed_matrix (zoomResultCore s f dd sgn a)) u
      = ![a.1, a.2, 1] := by
    conv_lhs => rw [← hue]
    rw [computed_matrix_mulVec, v_scale_zoomResultCore, v_translate_zoomResultCore,
      rotation_zoomResultCore]
    funext k
    fin_cases k <;> simp
    · linear_combination f * hc0 + (a.1 - (v_translate s).1) * hdd
    · linear_combination f * hc1 + (a.2 - (v_translate s).2) * hdd
  rw [← hkey2, inv_mulVec_computed (zoomResultCore s f dd sgn a) hdetN u]

/-- C4: for every valid state, one zoom step in (multiplying the zoom and
adjusting the offset as implemented in _zoom) does not raise and leaves the
logical point under the anchor pixel (pointer position, or viewport center
when the pointer is outside the viewport) unchanged: the inverse mapping of
the anchor computed after the step equals the one computed before it. -/
theorem C4_zoom_anchor (s : State) (hs : Synced s)
    (hsb : s.scale_base ≠ 0) (hz : s.zoom_value ≠ 0) (hzf : 0 < s.zoom_factor)
    (hr : ∀ r ∈ s.scale_ratio, 0 < r) (hw : 0 < s.width) (hh : 0 < s.height)
    (pointer : ℝ × ℝ) :
    ¬ raised (zoom s ZoomDir.IN pointer) ∧
    transform_point (runMutation (zoom s ZoomDir.IN pointer) s)
        (zoomAnchor s pointer).1 (zoomAnchor s pointer).2 false
      = transform_point s (zoomAnchor s pointer).1 (zoomAnchor s pointer).2 false := by
  by_cases hlt : s.zoom_factor < 1
  · have hfpos : 0 < 1 / (1 / s.zoom_factor) := by positivity
    have hfne : (1 : ℝ) / (1 / s.zoom_factor) ≠ 0 := ne_of_gt hfpos
    have hcond : ¬ s.zoom_value * (1 / (1 / s.zoom_factor)) = 0 := mul_ne_zero hz hfne
    have hdd : |1 / (1 / s.zoom_factor) - 1| * (1 : ℝ) = 1 - 1 / (1 / s.zoom_factor) := by
      rw [one_div_one_div, abs_of_nonpos (by linarith)]
      ring
    have hres : zoom s ZoomDir.IN pointer = Except.ok (update_transformation_matrix
        (zoomResultCore s (1 / (1 / s.zoom_factor)) |1 / (1 / s.zoom_factor) - 1| 1
          (zoomAnchor s pointer))) := by
      unfold zoom
      dsimp only
      simp only [if_pos hlt]
      dsimp only [flipZoomDir]
      rw [if_neg hcond]
      rfl
    rw [hres]
    exact ⟨by simp [raised],
      zoom_offset_anchors s hs hsb hz hr hw hh _ _ _ hfne hdd (zoomAnchor s pointer)⟩
  · have hfne : s.zoom_factor ≠ 0 := ne_of_gt hzf
    have hge : 1 ≤ s.zoom_factor := not_lt.mp hlt
    have hcond : ¬ s.zoom_value * s.zoom_factor = 0 := mul_ne_zero hz hfne
    have hdd : |s.zoom_factor - 1| * (-1 : ℝ) = 1 - s.zoom_factor := by
      rw [abs_of_nonneg (by linarith)]
      ring
    have hres : zoom s ZoomDir.IN pointer = Except.ok (update_transformation_matrix
        (zoomResultCore s s.zoom_factor |s.zoom_factor - 1| (-1) (zoomAnchor s pointer))) := by
      unfold zoom
      dsimp only
      simp only [if_neg hlt]
      rw [if_neg hcond]
      rfl
    rw [hres]
    exact ⟨by simp [raised],
      zoom_offset_anchors s hs hsb hz hr hw hh _ _ _ hfne hdd (zoomAnchor s pointer)⟩

/-- C4 witness: one zoom step in at the scenario state with the pointer at
pixel (10, 20). -/
theorem C4_zoom_anchor_witness :
    ¬ raised (zoom demoState ZoomDir.IN (10, 20)) ∧
    transform_point (runMutation (zoom demoState ZoomDir.IN (10, 20)) demoState)
        (zoomAnchor demoState (10, 20)).1 (zoomAnchor demoState (10, 20)).2 false
      = transform_point demoState (zoomAnchor demoState (10, 20)).1
          (zoomAnchor demoState (10, 20)).2 false :=
  C4_zoom_anchor demoState (synced_update_transformation_matrix demoState0)
    (by norm_num [demoState, update_transformation_matrix, demoState0])
    (by norm_num [demoState, update_transformation_matrix, demoState0])
    (by norm_num [demoState, update_transformation_matrix, demoState0])
    (by simp [demoState, update_transformation_matrix, demoState0])
    (by norm_num [demoState, update_transformation_matrix, demoState0])
    (by norm_num [demoState, update_transformation_matrix, demoState0])
    (10, 20)

end TC

namespace MatrixCls

/-- Each of translate, scale, rotate left-multiplies its elementary matrix
onto the accumulated matrix. -/
theorem applyOp_eq (self : TC.M3) (op : Op) : applyOp self op = elemMatrix op * self := by
  cases op with
  | translateOp x y => rfl
  | scaleOp x y o =>
    cases o with
    | none => rfl
    | some piv => rfl
  | rotateOp a o =>
    cases o with
    | none => rfl
    | some piv => rfl

/-- Folding builder calls over a seed and then applying to a point equals
threading the point through the elementary matrices in call order. -/
theorem build_mulVec (ops : List Op) (m : TC.M3) (p : Fin 3 → ℝ) :
    Matrix.mulVec (ops.foldl applyOp m) p
      = ops.foldl (fun q op => Matrix.mulVec (elemMatrix op) q) (Matrix.mulVec m p) := by
  induction ops generalizing m with
  | nil => rfl
  | cons op rest ih =>
    rw [List.foldl_cons, List.foldl_cons, ih, applyOp_eq, ← Matrix.mulVec_mulVec]

/-- C8 (amended): a chain of translate / scale / rotate builder calls applied
to a point applies the first-called operation first; in particular
Matrix().translate(dx, dy).rotate(angle) acts as the rotation matrix times
the translation matrix; but skew composes on the opposite side: the matrix
built by self.skew applies the shear to the point BEFORE all the operations
already accumulated in self. -/
theorem C8_composition (ops : List Op) (p : Fin 3 → ℝ) (self : TC.M3)
    (dx dy ang ax ay : ℝ) :
    Matrix.mulVec (build ops) p
        = ops.foldl (fun q op => Matrix.mulVec (elemMatrix op) q) p ∧
    Matrix.mulVec (rotate (translate new dx dy) ang none) p
        = Matrix.mulVec (elemMatrix (Op.rotateOp ang none))
            (Matrix.mulVec (elemMatrix (Op.translateOp dx dy)) p) ∧
    Matrix.mulVec (skew self ax ay) p
        = Matrix.mulVec self (Matrix.mulVec (skewMatrix ax ay) p) := by
  refine ⟨?_, ?_, ?_⟩
  · unfold build
    rw [build_mulVec]
    congr 1
    exact Matrix.one_mulVec p
  · unfold rotate translate new elemMatrix
    dsimp only
    rw [mul_one, ← Matrix.mulVec_mulVec]
  · unfold skew skewMatrix
    rw [← Matrix.mulVec_mulVec]

/-- C8 counterexample: Matrix().translate(0, 1).skew(45, 0) applied to the
point (0, 1) gives (1, 2): the skew, although called LAST, is applied to the
point FIRST; applying the first-called translate first and then the skew
would give (2, 2). -/
theorem C8_cex :
    Matrix.mulVec (skew (translate new 0 1) 45 0) ![0, 1, 1]
      ≠ Matrix.mulVec (skewMatrix 45 0)
          (Matrix.mulVec (elemMatrix (Op.translateOp 0 1)) ![0, 1, 1]) := by
  have htan : Real.tan (45 / 180 * Real.pi) = 1 := by
    rw [show (45 : ℝ) / 180 * Real.pi = Real.pi / 4 by ring]
    exact Real.tan_pi_div_four
  have htan0 : Real.tan ((0 : ℝ) / 180 * Real.pi) = 0 := by
    norm_num
  have hM : skew (translate new 0 1) 45 0 = !![1, 1, 0; 0, 1, 1; 0, 0, 1] := by
    unfold skew translate new
    rw [htan, htan0, mul_one]
    norm_num [Matrix.mul_fin_three]
  have hK : skewMatrix 45 0 = !![1, 1, 0; 0, 1, 0; 0, 0, 1] := by
    unfold skewMatrix
    rw [htan, htan0]
  have hT : elemMatrix (Op.translateOp (0 : ℝ) 1) = !![1, 0, 0; 0, 1, 1; 0, 0, 1] := rfl
  rw [hM, hK, hT, TC.mulVec_three, TC.mulVec_three, TC.mulVec_three]
  intro h
  have h0 := congrFun h 0
  simp at h0

end MatrixCls

namespace TC

/-- Python modulo of 0 is 0. -/
theorem pymod_zero (b : ℝ) : pymod 0 b = 0 := by
  unfold pymod
  simp

/-- Python modulo is nonnegative for a positive divisor. -/
theorem pymod_nonneg (a b : ℝ) (hb : 0 < b) : 0 ≤ pymod a b := by
  unfold pymod
  have h := Int.floor_le (a / b)
  have h2 : b * (⌊a / b⌋ : ℝ) ≤ b * (a / b) := by
    exact mul_le_mul_of_nonneg_left h (le_of_lt hb)
  rw [mul_div_cancel₀ a (ne_of_gt hb)] at h2
  linarith

/-- Python modulo vanishes when the quotient is an exact integer. -/
theorem pymod_eq_zero_of_div_int (a b : ℝ) (hb : b ≠ 0) (k : ℤ) (h : a = k * b) :
    pymod a b = 0 := by
  unfold pymod
  rw [h, mul_div_assoc, div_self hb, mul_one, Int.floor_intCast]
  ring

/-- Python modulo of the divisor by itself is 0. -/
theorem pymod_self (b : ℝ) (hb : b ≠ 0) : pymod b b = 0 :=
  pymod_eq_zero_of_div_int b b hb 1 (by ring)

/-- The normalized start angle of 0 degrees is 0. -/
theorem arcStart_zero : arcStart 0 = 0 := by
  unfold arcStart get_pos_modulo_angle
  simp [pymod_zero]

/-- The extent normalization maps every exact integer multiple of 360
degrees (0 included) to exactly 360 degrees, not 0. -/
theorem get_pos_modulo_angle_360k (k : ℤ) :
    get_pos_modulo_angle (360 * k) true true = 360 := by
  unfold get_pos_modulo_angle
  have hz : pymod (360 * (k : ℝ)) 360 = 0 :=
    pymod_eq_zero_of_div_int _ _ (by norm_num) k (by ring)
  norm_num [hz]

/-- The normalized extent of an exact multiple of 360 degrees is a full turn
in radians. -/
theorem arcExtent_360k (k : ℤ) : arcExtent (360 * k) = 2 * Real.pi := by
  unfold arcExtent
  rw [get_pos_modulo_angle_360k]
  ring

/-- The normalized extent of 360 degrees is a full turn in radians. -/
theorem arcExtent_360 : arcExtent 360 = 2 * Real.pi := by
  have h := arcExtent_360k 1
  norm_num at h
  exact h

/-- With a positive segment count, the step size is positive. -/
theorem arcStep_pos (n : ℕ) (hn : 0 < n) : 0 < arcStep n := by
  unfold arcStep
  have : (0 : ℝ) < n := by exact_mod_cast hn
  positivity

/-- A full-turn extent yields exactly n complete segments. -/
theorem arcNumSeg_full (n : ℕ) (e : ℝ) (he : arcExtent e = 2 * Real.pi) :
    arcNumSeg n e = n := by
  unfold arcNumSeg
  rw [he, div_mul_cancel₀ _ (by positivity : (2 : ℝ) * Real.pi ≠ 0), Int.floor_natCast]
  exact Int.toNat_natCast n

/-- A start angle of 0 lands on a step boundary: no leading partial
segment. -/
theorem arcBegin_zero (n : ℕ) (hn : 0 < n) : arcBegin n 0 = 0 := by
  unfold arcBegin
  rw [arcStart_zero, pymod_zero, sub_zero, pymod_self _ (ne_of_gt (arcStep_pos n hn))]

/-- A full-turn arc starting at 0 has no trailing partial segment. -/
theorem arcEnd_full (n : ℕ) (hn : 0 < n) (e : ℝ) (he : arcExtent e = 2 * Real.pi) :
    arcEnd n 0 e = 0 := by
  unfold arcEnd
  rw [arcStart_zero, he, zero_add]
  apply pymod_eq_zero_of_div_int _ _ (ne_of_gt (arcStep_pos n hn)) n
  unfold arcStep
  have hne : (n : ℝ) ≠ 0 := by exact_mod_cast Nat.pos_iff_ne_zero.mp hn
  field_simp

/-- The angle list of a full-turn arc starting at 0: exactly the n uniform
step boundaries i * (2 pi / n) for i in 0..n-1 (the angle 2 pi itself is not
emitted; the polygon closes back to the first point). -/
theorem ovalAngles (n : ℕ) (hn : 0 < n) (e : ℝ) (he : arcExtent e = 2 * Real.pi) :
    arcAngles n 0 e = (List.range n).map (fun i : ℕ => (i : ℝ) * arcStep n) := by
  unfold arcAngles
  rw [arcBegin_zero n hn, arcEnd_full n hn e he, arcNumSeg_full n e he]
  simp [arcStart_zero]

/-- The tessellated points of a full create_oval call: the ellipse points at
the n uniform circle angles. -/
theorem ovalPoints_eq (x1 y1 x2 y2 : ℝ) (n : ℕ) (hn : 0 < n) :
    ovalPoints x1 y1 x2 y2 n
      = (List.range n).map (fun i : ℕ =>
          ((x2 - x1) / 2 * Real.cos ((i : ℝ) * arcStep n) + ((x2 - x1) / 2 + x1),
           (y2 - y1) / 2 * Real.sin ((i : ℝ) * arcStep n) + ((y2 - y1) / 2 + y1))) := by
  unfold ovalPoints arcPoints
  rw [ovalAngles n hn 360 arcExtent_360]
  simp [arcExtent_360, List.map_map]

/-- The floor of one half is 0. -/
theorem floor_half : ⌊(1 : ℝ) / 2⌋ = 0 := by
  rw [Int.floor_eq_zero_iff]
  constructor <;> norm_num

/-- 45 modulo 360 is 45. -/
theorem pymod_45_360 : pymod (45 : ℝ) 360 = 45 := by
  unfold pymod
  have h : ⌊(45 : ℝ) / 360⌋ = 0 := by
    rw [Int.floor_eq_zero_iff]
    constructor <;> norm_num
  rw [h]
  ring

/-- The angle normalization keeps 45 degrees. -/
theorem get_pos_45 : get_pos_modulo_angle 45 true true = 45 := by
  unfold get_pos_modulo_angle
  norm_num [pymod_45_360]

/-- The normalized extent of 45 degrees is pi / 4 radians. -/
theorem arcExtent_45 : arcExtent 45 = Real.pi / 4 := by
  unfold arcExtent
  rw [get_pos_45]
  ring

/-- The step size for 4 segments is pi / 2. -/
theorem arcStep_4 : arcStep 4 = Real.pi / 2 := by
  unfold arcStep
  push_cast
  ring

/-- For 4 segments and extent 45 degrees no complete segment fits:
int(4 / (2 pi) * (pi / 4)) = int(1 / 2) = 0. -/
theorem arcNumSeg_4_45 : arcNumSeg 4 45 = 0 := by
  unfold arcNumSeg
  rw [arcExtent_45]
  have harg : ((4 : ℕ) : ℝ) / (2 * Real.pi) * (Real.pi / 4) = 1 / 2 := by
    have hpi := Real.pi_ne_zero
    push_cast
    field_simp
    ring
  rw [harg, floor_half]
  rfl

/-- The trailing partial segment for 4 segments, start 0, extent 45 degrees
is pi / 4. -/
theorem arcEnd_4_45 : arcEnd 4 0 45 = Real.pi / 4 := by
  unfold arcEnd
  rw [arcStart_zero, arcExtent_45, zero_add, arcStep_4]
  unfold pymod
  have hq : Real.pi / 4 / (Real.pi / 2) = 1 / 2 := by
    have hpi := Real.pi_ne_zero
    field_simp
    ring
  rw [hq, floor_half]
  simp

/-- C6 (amended): every sampled vertex of the oval tessellation is computed
from the circle angle theta = 2 pi i / n directly, as
center + (r1 cos theta, r2 sin theta); no atan-based parameter-angle
correction is applied for r1 different from r2, and in the degenerate case
r1 = r2 the points lie at exactly the uniform angles 2 pi i / n. -/
theorem C6_oval_vertices (x1 y1 x2 y2 : ℝ) (n : ℕ) (hn : 0 < n) :
    ovalPoints x1 y1 x2 y2 n
      = (List.range n).map (fun i : ℕ =>
          ((x2 - x1) / 2 * Real.cos (2 * Real.pi * i / n) + ((x2 - x1) / 2 + x1),
           (y2 - y1) / 2 * Real.sin (2 * Real.pi * i / n) + ((y2 - y1) / 2 + y1))) := by
  rw [ovalPoints_eq x1 y1 x2 y2 n hn]
  have hfun : (fun i : ℕ =>
      ((x2 - x1) / 2 * Real.cos ((i : ℝ) * arcStep n) + ((x2 - x1) / 2 + x1),
       (y2 - y1) / 2 * Real.sin ((i : ℝ) * arcStep n) + ((y2 - y1) / 2 + y1)))
      = (fun i : ℕ =>
          ((x2 - x1) / 2 * Real.cos (2 * Real.pi * i / n) + ((x2 - x1) / 2 + x1),
           (y2 - y1) / 2 * Real.sin (2 * Real.pi * i / n) + ((y2 - y1) / 2 + y1))) := by
    funext i
    rw [show (i : ℝ) * arcStep n = 2 * Real.pi * i / n by unfold arcStep; ring]
  rw [hfun]

/-- C6 witness: the oval vertices of the bounding box (0, 0, 2, 2) with 4
segments. -/
theorem C6_oval_vertices_witness :
    0 < 4 ∧
    ovalPoints 0 0 2 2 4
      = (List.range 4).map (fun i : ℕ =>
          (((2 : ℝ) - 0) / 2 * Real.cos (2 * Real.pi * i / 4) + ((2 - 0) / 2 + 0),
           ((2 : ℝ) - 0) / 2 * Real.sin (2 * Real.pi * i / 4) + ((2 - 0) / 2 + 0))) :=
  ⟨by norm_num, C6_oval_vertices 0 0 2 2 4 (by norm_num)⟩

/-- C6 counterexample: for the oval with bounding box (-4, -1, 4, 1), so
r1 = 4 and r2 = 1, and 8 segments, the sampled vertex at i = 1 is
(4 cos(pi/4), sin(pi/4)), which differs from the vertex the specification
formula produces via phi = atan(tan(theta) * sqrt(r2 / r1)). -/
theorem C6_cex :
    (ovalPoints (-4) (-1) 4 1 8).get? 1 ≠ some (specOvalVertex (-4) (-1) 4 1 8 1) := by
  rw [ovalPoints_eq (-4) (-1) 4 1 8 (by norm_num)]
  rw [List.get?_map, List.get?_range (by norm_num)]
  have hstep : ((1 : ℕ) : ℝ) * arcStep 8 = Real.pi / 4 := by
    unfold arcStep
    push_cast
    ring
  have hspec : specOvalVertex (-4) (-1) 4 1 8 1
      = (4 * (1 / Real.sqrt (1 + (1 / 2) ^ 2)),
         1 * Real.sin (Real.arctan (1 / 2))) := by
    unfold specOvalVertex
    dsimp only
    have htheta : 2 * Real.pi * ((1 : ℕ) : ℝ) / ((8 : ℕ) : ℝ) = Real.pi / 4 := by
      push_cast
      ring
    rw [htheta]
    have hr : ¬ ((4 : ℝ) - -4) / 2 = (1 - -1) / 2 := by norm_num
    rw [if_neg hr]
    have hcospos : ¬ Real.cos (Real.pi / 4) < 0 := by
      rw [Real.cos_pi_div_four]
      exact not_lt.mpr (by positivity)
    rw [if_neg hcospos]
    have hsq : Real.sqrt (((1 : ℝ) - -1) / 2 / ((4 - -4) / 2)) = 1 / 2 := by
      rw [show ((1 : ℝ) - -1) / 2 / ((4 - -4) / 2) = (1 / 2) ^ 2 by norm_num]
      exact Real.sqrt_sq (by norm_num)
    rw [hsq, Real.tan_pi_div_four, one_mul, add_zero, Real.cos_arctan]
    norm_num
  simp only [Option.map_some']
  rw [hspec, hstep]
  intro h
  rw [Option.some.injEq] at h
  have h1 := congrArg Prod.fst h
  dsimp at h1
  rw [Real.cos_pi_div_four] at h1
  have hval : Real.sqrt (1 + (1 / 2 : ℝ) ^ 2) = Real.sqrt (5 / 4) := by norm_num
  rw [hval] at h1
  have hs2 : Real.sqrt 2 ^ 2 = 2 := Real.sq_sqrt (by norm_num)
  have hs54 : Real.sqrt (5 / 4) ^ 2 = 5 / 4 := Real.sq_sqrt (by norm_num)
  have h1c : 2 * Real.sqrt 2 = 4 * (1 / Real.sqrt (5 / 4)) := by linarith
  have hL : (2 * Real.sqrt 2) ^ 2 = 8 := by
    rw [mul_pow, hs2]
    norm_num
  have hR : (4 * (1 / Real.sqrt (5 / 4))) ^ 2 = 64 / 5 := by
    rw [mul_pow, one_div, inv_pow, hs54]
    norm_num
  have h2 : (8 : ℝ) = 64 / 5 := by rw [← hL, ← hR, h1c]
  norm_num at h2

/-- C7: an arc whose extent is an exact positive or negative multiple of a
full turn is normalized to exactly 360 degrees (one full turn) rather than
0, and its tessellation equals the oval tessellation with the same bounding
box and segment count, whatever the requested style. -/
theorem C7_full_turn (x1 y1 x2 y2 : ℝ) (n : ℕ) (hn : 0 < n) (k : ℤ) (hk : k ≠ 0)
    (style : ArcStyle) :
    get_pos_modulo_angle (360 * k) true true = 360 ∧
    arcPoints x1 y1 x2 y2 n 0 (360 * k) style = ovalPoints x1 y1 x2 y2 n := by
  refine ⟨get_pos_modulo_angle_360k k, ?_⟩
  unfold ovalPoints arcPoints
  rw [ovalAngles n hn _ (arcExtent_360k k), ovalAngles n hn 360 arcExtent_360]
  simp [arcExtent_360k k, arcExtent_360]

/-- C7 witness: an arc with extent -720 degrees and pie-slice style requested
tessellates to the oval points, for the bounding box (0, 0, 2, 2) with 4
segments. -/
theorem C7_full_turn_witness :
    get_pos_modulo_angle (360 * ((-2 : ℤ) : ℝ)) true true = 360 ∧
    arcPoints 0 0 2 2 4 0 (360 * ((-2 : ℤ) : ℝ)) ArcStyle.PIESLICE
      = ovalPoints 0 0 2 2 4 :=
  C7_full_turn 0 0 2 2 4 (by norm_num) (-2) (by norm_num) ArcStyle.PIESLICE

/-- C5 (amended): the arc angle sequence begins exactly at the normalized
start angle whenever a leading partial segment is inserted (start not on a
step boundary) or at least one complete segment exists, and it ends exactly
at start + extent whenever a trailing partial segment is inserted
(start + extent not on a step boundary); when start lies on a step boundary
and no complete segment fits, the sequence does not begin at start, and when
start + extent lies on a step boundary no point at start + extent is
emitted. -/
theorem C5_arc_endpoints (n : ℕ) (startDeg extentDeg : ℝ) (hn : 0 < n) :
    (arcBegin n startDeg > 0 ∨ 1 ≤ arcNumSeg n extentDeg →
      (arcAngles n startDeg extentDeg).head? = some (arcStart startDeg)) ∧
    (arcEnd n startDeg extentDeg > 0 →
      (arcAngles n startDeg extentDeg).getLast?
        = some (arcStart startDeg + arcExtent extentDeg)) := by
  constructor
  · intro h
    by_cases hb : arcBegin n startDeg > 0
    · unfold arcAngles
      rw [if_pos hb]
      rfl
    · have hns : 1 ≤ arcNumSeg n extentDeg := by
        rcases h with h | h
        · exact absurd h hb
        · exact h
      have hb0 : arcBegin n startDeg = 0 := by
        have h0 : 0 ≤ arcBegin n startDeg :=
          pymod_nonneg _ _ (arcStep_pos n hn)
        have h1 := not_lt.mp hb
        linarith
      unfold arcAngles
      rw [if_neg hb]
      obtain ⟨m, hm⟩ : ∃ m, arcNumSeg n extentDeg = m + 1 :=
        ⟨arcNumSeg n extentDeg - 1, by omega⟩
      rw [hm, List.range_succ_eq_map]
      simp [hb0]
  · intro he
    unfold arcAngles
    rw [if_pos he]
    exact List.getLast?_concat _

/-- C5 witness: the full-turn arc with 4 segments begins at the normalized
start angle (a complete segment exists), and the 45 degree arc with 4
segments ends at start + extent (a trailing partial segment exists). -/
theorem C5_arc_endpoints_witness :
    (arcAngles 4 0 360).head? = some (arcStart 0) ∧
    (arcAngles 4 0 45).getLast? = some (arcStart 0 + arcExtent 45) :=
  ⟨(C5_arc_endpoints 4 0 360 (by norm_num)).1
      (Or.inr (by rw [arcNumSeg_full 4 360 arcExtent_360]; norm_num)),
   (C5_arc_endpoints 4 0 45 (by norm_num)).2 (by rw [arcEnd_4_45]; positivity)⟩

/-- C5 counterexample: for n = 4, start 0 and extent 45 degrees, start lies
on a step boundary (no leading partial segment) and no complete segment
fits, so the angle list is just the single trailing angle pi / 4: the arc
does NOT begin at the normalized start angle 0. -/
theorem C5_cex : (arcAngles 4 0 45).head? ≠ some (arcStart 0) := by
  unfold arcAngles
  rw [if_neg (by rw [arcBegin_zero 4 (by norm_num)]; exact lt_irrefl 0)]
  rw [arcNumSeg_4_45]
  rw [if_pos (by rw [arcEnd_4_45]; positivity)]
  simp [arcStart_zero, arcExtent_45, Real.pi_ne_zero]

end TC
